import Mathlib

/-!
Verification of the high-level RCON client (`mcipc/rcon/client.py`).

Text is modelled as `List Char`.  Python string primitives used by the
module (`str.strip`, `str.split()` with no argument, `str.split(", ")`,
`str.split(':', maxsplit=1)`, `str.replace('\t', ...)`, `int(...)`) are
embedded below as executable Lean functions with the same semantics on
the inputs the module feeds them.
-/

namespace Mcipc

/-- The whitespace characters recognised by Python `str.strip()` /
`str.split()` on ASCII text. -/
def isPySpace (c : Char) : Bool :=
  c = ' ' || c = '\t' || c = '\n' || c = '\r' || c = '\x0b' || c = '\x0c'

/-- Python `s.strip()`: drop leading whitespace, then trailing whitespace. -/
def pyStrip (s : List Char) : List Char :=
  List.rdropWhile isPySpace (List.dropWhile isPySpace s)

/-- Accumulator loop for Python `s.split()` (split on runs of whitespace,
discarding empty pieces). -/
def splitWsAux : List Char → List Char → List (List Char)
  | [], acc => if acc.isEmpty then [] else [acc.reverse]
  | c :: rest, acc =>
    if isPySpace c then
      if acc.isEmpty then splitWsAux rest []
      else acc.reverse :: splitWsAux rest []
    else splitWsAux rest (c :: acc)

/-- Python `s.split()` with no argument. -/
def splitWs (s : List Char) : List (List Char) :=
  splitWsAux s []

/-- Python `s.split(", ")`: split on each leftmost occurrence of the
two-character separator comma-space; an input with no separator yields a
single piece, and the empty string yields `[[]]`. -/
def splitCommaSpace : List Char → List (List Char)
  | [] => [[]]
  | [c] => [[c]]
  | c1 :: c2 :: rest =>
    if c1 = ',' ∧ c2 = ' ' then
      [] :: splitCommaSpace rest
    else
      match splitCommaSpace (c2 :: rest) with
      | [] => [[c1]]
      | r :: rs => (c1 :: r) :: rs

/-- Python `s.split(':', maxsplit=1)` together with the module's tuple
unpacking into two variables: `none` models the `ValueError` raised when
the string has no colon. -/
def splitFirstColon : List Char → Option (List Char × List Char)
  | [] => none
  | c :: rest =>
    if c = ':' then some ([], rest)
    else
      match splitFirstColon rest with
      | none => none
      | some (h, t) => some (c :: h, t)

/-- Decimal digit accumulation for `int(...)`. -/
def decDigitsAux : List Char → Nat → Option Nat
  | [], acc => some acc
  | c :: rest, acc =>
    if c.isDigit then decDigitsAux rest (acc * 10 + (c.toNat - '0'.toNat))
    else none

/-- A non-empty all-digit string's value, `none` otherwise. -/
def decDigits (s : List Char) : Option Nat :=
  if s.isEmpty then none else decDigitsAux s 0

/-- Python `int(s)` on a decimal string token: optional surrounding
whitespace, an optional sign, then one or more digits; `none` models the
`ValueError` raised on any other input. -/
def pyInt (s : List Char) : Option Int :=
  match pyStrip s with
  | '+' :: ds => (decDigits ds).map Int.ofNat
  | '-' :: ds => (decDigits ds).map (fun n => -(n : Int))
  | ds => (decDigits ds).map Int.ofNat

/-- The `_Players` namedtuple: online count, capacity, player names. -/
structure Players where
  online : Int
  max : Int
  names : List (List Char)
deriving DecidableEq

/-- The name-list computation of `_Players.from_string`:
`[name.strip() for name in names.split(', ') if name.strip()]`. -/
def parseNames (namesStr : List Char) : List (List Char) :=
  ((splitCommaSpace namesStr).map pyStrip).filter (fun n => !n.isEmpty)

/-- The header computation of `_Players.from_string`:
`_, _, online, _, _, _, max_, _, _ = header.split()` followed by
`int(online)` and `int(max_)`.  The unpack succeeds exactly when the
header splits into nine whitespace-separated tokens, and binds the third
and the seventh; `none` models the `ValueError` raised otherwise. -/
def parseHeader (header : List Char) : Option (Int × Int) :=
  match splitWs header with
  | [_, _, online, _, _, _, max_, _, _] =>
    match pyInt online, pyInt max_ with
    | some o, some m => some (o, m)
    | _, _ => none
  | _ => none

/-- `_Players.from_string`: split on the first colon, parse the name
list after it and the nine-token header before it.  `none` models a
raised `ValueError` (from the unpacking or from `int`). -/
def from_string (string : List Char) : Option Players :=
  match splitFirstColon string with
  | none => none
  | some (header, namesStr) =>
    match parseHeader header with
    | some (o, m) => some ⟨o, m, parseNames namesStr⟩
    | none => none

/-- The replacement string of `_tab_to_spaces`: eight spaces. -/
def eightSpaces : List Char :=
  [' ', ' ', ' ', ' ', ' ', ' ', ' ', ' ']

/-- `_tab_to_spaces`: `text.replace('\t', '        ')` — every occurrence
of the one-character pattern tab is replaced by eight spaces. -/
def tab_to_spaces : List Char → List Char
  | [] => []
  | c :: rest =>
    (if c = '\t' then eightSpaces else [c]) ++ tab_to_spaces rest

/-- `Client.say`: the token sequence handed to `run('say', ...)`. -/
def say (message : List Char) : List (List Char) :=
  ["say".toList, tab_to_spaces message]

/-- `Client.tell`: the token sequence handed to `run('tell', ...)`. -/
def tell (player message : List Char) : List (List Char) :=
  ["tell".toList, player, tab_to_spaces message]

/-- A Python value to which the module applies `str(...)`: the excerpt
passes strings and numbers. -/
inductive PyValue
  | str (s : List Char)
  | int (n : Int)
deriving DecidableEq

/-- Python `str(...)` on the values above (decimal rendering for ints). -/
def pyStr : PyValue → List Char
  | .str s => s
  | .int n => (toString n).toList

/-- The module-level `_PLAYER_OR_COORDS` TypeError raised by `teleport`. -/
inductive TeleportError
  | playerOrCoords
deriving DecidableEq

/-- Appending the optional yaw/pitch tokens and prepending the command
name, as done by the tail of `Client.teleport` before `run('tp', *args)`. -/
def tpTokens (args : List (List Char)) (yaw_pitch : Option (PyValue × PyValue)) :
    List (List Char) :=
  match yaw_pitch with
  | some (yaw, pitch) => "tp".toList :: (args ++ [pyStr yaw, pyStr pitch])
  | none => "tp".toList :: args

/-- `Client.teleport`: `.error` models the TypeError raised before any
call to `run`; `.ok toks` models the call `run('tp', *args)` with the
full token sequence `toks` (command name first). -/
def teleport (player : PyValue) (dst_player : Option PyValue)
    (coords : Option (PyValue × PyValue × PyValue))
    (yaw_pitch : Option (PyValue × PyValue)) :
    Except TeleportError (List (List Char)) :=
  let args := [pyStr player]
  match dst_player, coords with
  | some _, some _ => .error .playerOrCoords
  | some d, none => .ok (tpTokens (args ++ [pyStr d]) yaw_pitch)
  | none, some (x, y, z) =>
    .ok (tpTokens (args ++ [pyStr x, pyStr y, pyStr z]) yaw_pitch)
  | none, none => .error .playerOrCoords

/-- Outcome of the raw client's `login` (the external capability): a
returned boolean, the `RequestIdMismatch` exception, or any other
exception. -/
inductive RawLoginResult
  | success (value : Bool)
  | requestIdMismatch
  | otherError (e : List Char)
deriving DecidableEq

/-- What `Client.login` does: a returned boolean or a propagated
exception. -/
inductive LoginResult
  | value (b : Bool)
  | raised (e : List Char)
deriving DecidableEq

/-- `Client.login`: delegate to the raw client's login and convert a
`RequestIdMismatch` into `False`; other exceptions propagate. -/
def login (rawLogin : List Char → RawLoginResult) (passwd : List Char) :
    LoginResult :=
  match rawLogin passwd with
  | .success b => .value b
  | .requestIdMismatch => .value false
  | .otherError e => .raised e

/-- Outcome of `check_output` on the fortune binary: captured stdout, a
`FileNotFoundError`, or a `CalledProcessError` with captured stderr. -/
inductive SubprocResult
  | output (text : List Char)
  | fileNotFound
  | processError (stderr : List Char)
deriving DecidableEq

/-- The argument list `Client.fortune` builds: `-s` when `short`, then
`-o` when `offensive`. -/
def fortuneFlags (short offensive : Bool) : List (List Char) :=
  (if short then ["-s".toList] else []) ++
    (if offensive then ["-o".toList] else [])

/-- What `Client.fortune` returns: the forwarded `say` call on success,
or the `False` sentinel. -/
inductive FortuneOutcome
  | sent (result : List (List Char))
  | failed
deriving DecidableEq

/-- `Client.fortune`: run the external binary via `check_output`; on
`FileNotFoundError` or `CalledProcessError` log and return `False`
(`.failed`); otherwise forward the captured text to `say`. -/
def fortune (checkOutput : List (List Char) → SubprocResult)
    (short offensive : Bool) : FortuneOutcome :=
  match checkOutput (fortuneFlags short offensive) with
  | .fileNotFound => .failed
  | .processError _ => .failed
  | .output text => .sent (say text)

/-- `true` when the string contains the comma-space separator. -/
def hasCS : List Char → Bool
  | c1 :: c2 :: rest => (c1 = ',' && c2 = ' ') || hasCS (c2 :: rest)
  | _ => false

/-- Join tokens with single spaces (to state well-formed headers). -/
def joinSp : List (List Char) → List Char
  | [] => []
  | [t] => t
  | t1 :: t2 :: ts => t1 ++ ' ' :: joinSp (t2 :: ts)

/-- Join names with the comma-space separator (to state well-formed name
lists). -/
def joinCS : List (List Char) → List Char
  | [] => []
  | [n] => n
  | n1 :: n2 :: ns => n1 ++ ',' :: ' ' :: joinCS (n2 :: ns)

/-- A well-formed header word: non-empty, no whitespace, no colon. -/
def isHeaderToken (t : List Char) : Prop :=
  t ≠ [] ∧ ∀ c ∈ t, isPySpace c = false ∧ c ≠ ':'

instance (t : List Char) : Decidable (isHeaderToken t) := by
  unfold isHeaderToken; infer_instance

/-- A well-formed listed name: non-empty, already stripped, and not
containing the comma-space separator. -/
def isCleanName (n : List Char) : Prop :=
  n ≠ [] ∧ pyStrip n = n ∧ hasCS n = false

instance (n : List Char) : Decidable (isCleanName n) := by
  unfold isCleanName; infer_instance

/-! ## Helper lemmas -/

theorem mem_tab_to_spaces_ne_tab (text : List Char) :
    ∀ c ∈ tab_to_spaces text, c ≠ '\t' := by
  induction text with
  | nil => simp [tab_to_spaces]
  | cons c rest ih =>
    intro d hd
    simp only [tab_to_spaces, List.mem_append] at hd
    rcases hd with hd | hd
    · by_cases hc : c = '\t'
      · rw [if_pos hc] at hd
        have hds : d = ' ' := by simpa [eightSpaces] using hd
        simp [hds]
      · rw [if_neg hc] at hd
        simp only [List.mem_singleton] at hd
        rw [hd]; exact hc
    · exact ih d hd

theorem tab_to_spaces_of_no_tab (l : List Char) (h : ∀ c ∈ l, c ≠ '\t') :
    tab_to_spaces l = l := by
  induction l with
  | nil => rfl
  | cons c rest ih =>
    have hc : c ≠ '\t' := h c (by simp)
    simp [tab_to_spaces, hc, ih (fun d hd => h d (by simp [hd]))]

/-! ## Claim theorems -/

/-- C4: the sanitization applied by `say` and `tell` (`_tab_to_spaces`)
replaces every horizontal tab with exactly eight spaces, leaves every
other character unchanged, and is idempotent; `say` and `tell` apply it
to the message before transmission. -/
theorem tab_sanitization_spec (text : List Char) (player : List Char) :
    tab_to_spaces text =
      text.flatMap (fun c => if c = '\t' then eightSpaces else [c]) ∧
    tab_to_spaces (tab_to_spaces text) = tab_to_spaces text ∧
    say text = ["say".toList, tab_to_spaces text] ∧
    tell player text = ["tell".toList, player, tab_to_spaces text] := by
  refine ⟨?_, ?_, rfl, rfl⟩
  · induction text with
    | nil => rfl
    | cons c rest ih => simp [tab_to_spaces, ih]
  · exact tab_to_spaces_of_no_tab _ (mem_tab_to_spaces_ne_tab text)

/-- C2: `teleport` raises the `_PLAYER_OR_COORDS` TypeError (before any
call to `run`) exactly when both of `dst_player` and `coords` are
supplied or neither is. -/
theorem teleport_requires_exactly_one_target (player : PyValue)
    (dst_player : Option PyValue) (coords : Option (PyValue × PyValue × PyValue))
    (yaw_pitch : Option (PyValue × PyValue)) :
    teleport player dst_player coords yaw_pitch = .error .playerOrCoords ↔
      (dst_player.isSome = true ∧ coords.isSome = true) ∨
        (dst_player = none ∧ coords = none) := by
  cases dst_player <;> rcases coords with _ | ⟨x, y, z⟩ <;> simp [teleport]

/-- C5: teleporting a player to coordinates `(1, 2, 3)` with no
yaw/pitch sends `tp` with argument tokens exactly
`[player, "1", "2", "3"]` in that order. -/
theorem teleport_coords_tokens (player : PyValue) :
    teleport player none (some (.int 1, .int 2, .int 3)) none =
      .ok ["tp".toList, pyStr player, "1".toList, "2".toList, "3".toList] := by
  rfl

/-- C9: whenever `yaw_pitch` is supplied, `teleport` appends the yaw and
pitch tokens to the command it would otherwise send, regardless of which
positional variant (destination player or coordinates) was chosen. -/
theorem teleport_yaw_pitch_appended (player : PyValue)
    (dst_player : Option PyValue) (coords : Option (PyValue × PyValue × PyValue))
    (yaw pitch : PyValue) :
    teleport player dst_player coords (some (yaw, pitch)) =
      (teleport player dst_player coords none).map
        (fun toks => toks ++ [pyStr yaw, pyStr pitch]) := by
  cases dst_player <;> rcases coords with _ | ⟨x, y, z⟩ <;>
    simp [teleport, tpTokens, Except.map]

/-- C3: when the raw client's `login` raises `RequestIdMismatch`, the
high-level `login` returns the boolean `False` and does not raise. -/
theorem login_mismatch_false (rawLogin : List Char → RawLoginResult)
    (passwd : List Char) (h : rawLogin passwd = .requestIdMismatch) :
    login rawLogin passwd = .value false := by
  unfold login
  rw [h]

/-- Witness for C3 at a concrete raw client and password. -/
theorem login_mismatch_false_witness :
    login (fun _ => RawLoginResult.requestIdMismatch) "hunter2".toList =
      .value false :=
  login_mismatch_false _ _ rfl

/-- C6: when the fortune binary is absent (`FileNotFoundError`) or exits
with a non-zero status (`CalledProcessError`), `fortune` returns the
`False` sentinel and does not raise. -/
theorem fortune_contains_failures (checkOutput : List (List Char) → SubprocResult)
    (short offensive : Bool)
    (h : checkOutput (fortuneFlags short offensive) = .fileNotFound ∨
      ∃ e, checkOutput (fortuneFlags short offensive) = .processError e) :
    fortune checkOutput short offensive = .failed := by
  unfold fortune
  rcases h with h | ⟨e, h⟩ <;> rw [h]

/-- Witness for C6 at both failure modes, at concrete subprocess
behaviors and flags. -/
theorem fortune_contains_failures_witness :
    fortune (fun _ => SubprocResult.fileNotFound) true false = .failed ∧
    fortune (fun _ => SubprocResult.processError "no fortunes".toList) false true =
      .failed :=
  ⟨fortune_contains_failures _ _ _ (Or.inl rfl),
    fortune_contains_failures _ _ _ (Or.inr ⟨_, rfl⟩)⟩

/-- C1 counterexample: a response whose header carries the online/max
pair as the single token `3/20` among surrounding words (nine words in
all) and whose suffix lists `a, b`.  The claim predicts a successful
parse with `online = 3`, `max = 20`, `names = [a, b]`; the code raises
(`int('3/20')` fails), i.e. parsing yields nothing. -/
theorem from_string_slash_token_counterexample :
    "3/20".toList ∈ splitWs "There are 3/20 of a max 20 players online".toList ∧
    from_string "There are 3/20 of a max 20 players online: a, b".toList = none := by
  decide

/-- C7 counterexample: name-list segments `"a,  b ,c"` and `"a, b, c"`
do not parse to the same sequence — the first yields `["a", "b ,c"]`
because only the exact comma-space separator is split on. -/
theorem name_list_whitespace_counterexample :
    from_string "There are 2 of a max 20 players online: a,  b ,c".toList =
      some ⟨2, 20, ["a".toList, "b ,c".toList]⟩ ∧
    from_string "There are 2 of a max 20 players online: a, b, c".toList =
      some ⟨2, 20, ["a".toList, "b".toList, "c".toList]⟩ ∧
    ["a".toList, "b ,c".toList] ≠ ["a".toList, "b".toList, "c".toList] := by
  decide

/-- C7 amended: the name list is split on the exact two-character
separator comma-space and each piece is then trimmed, so `"a, b, c"`
yields `[a, b, c]` while `"a,  b ,c"` yields `["a", "b ,c"]`. -/
theorem name_list_exact_separator :
    parseNames "a, b, c".toList = ["a".toList, "b".toList, "c".toList] ∧
    parseNames "a,  b ,c".toList = ["a".toList, "b ,c".toList] ∧
    parseNames "a, b ".toList = ["a".toList, "b".toList] := by
  decide

/-- C8 counterexample: a response whose header contains no slash token
at all (the stock nine-word server message) parses successfully instead
of surfacing a decode failure. -/
theorem header_without_slash_parses :
    (∀ c ∈ "There are 3 of a max 20 players online".toList, c ≠ '/') ∧
    from_string "There are 3 of a max 20 players online: Notch".toList =
      some ⟨3, 20, ["Notch".toList]⟩ := by
  decide

/-- C8 amended: parsing never looks for an `N/M` token; it surfaces a
decode failure when the header does not split into exactly nine
whitespace-separated words (and, by `pyInt`, when the third or seventh
word is not an integer literal), while a slash-free nine-word header
parses successfully. -/
theorem from_string_malformed_header (s header namesStr : List Char)
    (hsplit : splitFirstColon s = some (header, namesStr))
    (hlen : (splitWs header).length ≠ 9) :
    from_string s = none := by
  unfold from_string
  rw [hsplit]
  have hph : parseHeader header = none := by
    unfold parseHeader
    rcases h : splitWs header with
      _ | ⟨a0, _ | ⟨a1, _ | ⟨a2, _ | ⟨a3, _ | ⟨a4, _ | ⟨a5, _ | ⟨a6,
        _ | ⟨a7, _ | ⟨a8, _ | ⟨a9, rest⟩⟩⟩⟩⟩⟩⟩⟩⟩⟩ <;>
      rw [h] at hlen <;>
      first
        | rfl
        | simp at hlen
  simp [hph]

/-- Witness for C8's amended theorem: a one-word header fails to
parse. -/
theorem from_string_malformed_header_witness :
    from_string "oops: x".toList = none :=
  from_string_malformed_header "oops: x".toList "oops".toList " x".toList
    (by decide) (by decide)

theorem dropWhile_rdropWhile (p : Char → Bool) (l : List Char)
    (hl : l.dropWhile p = l) :
    (l.rdropWhile p).dropWhile p = l.rdropWhile p := by
  rcases hB : l.rdropWhile p with _ | ⟨b, t⟩
  · rfl
  · have hpre : l.rdropWhile p <+: l := List.rdropWhile_prefix p l
    rw [hB] at hpre
    obtain ⟨u, hu⟩ := hpre
    have hb : p b = false := by
      by_contra hb
      have hb' : p b = true := by simpa using hb
      rw [← hu, List.cons_append, List.dropWhile_cons_of_pos hb'] at hl
      have hsub : List.Sublist (b :: (t ++ u)) (t ++ u) := by
        rw [← hl]
        exact List.dropWhile_sublist p
      have hcontra := hsub.length_le
      simp at hcontra
    simp [hb]

theorem pyStrip_idem (s : List Char) : pyStrip (pyStrip s) = pyStrip s := by
  unfold pyStrip
  rw [dropWhile_rdropWhile isPySpace _ (List.dropWhile_idempotent _ _),
    List.rdropWhile_idempotent]

theorem parseNames_clean (namesStr : List Char) :
    ∀ n ∈ parseNames namesStr, n ≠ [] ∧ pyStrip n = n := by
  intro n hn
  unfold parseNames at hn
  obtain ⟨hmem, hne⟩ := List.mem_filter.mp hn
  obtain ⟨x, _, rfl⟩ := List.mem_map.mp hmem
  refine ⟨?_, pyStrip_idem x⟩
  simpa using hne

/-- C10: on every input on which `from_string` succeeds, every parsed
name is non-empty and carries no leading or trailing whitespace (it is
fixed by `pyStrip`). -/
theorem from_string_names_clean (s : List Char) (p : Players)
    (h : from_string s = some p) :
    ∀ n ∈ p.names, n ≠ [] ∧ pyStrip n = n := by
  unfold from_string at h
  split at h
  · exact absurd h (by simp)
  · rename_i header namesStr heq
    split at h
    · rename_i o m hph
      have hp : p = ⟨o, m, parseNames namesStr⟩ := (Option.some.inj h).symm
      rw [hp]
      exact parseNames_clean namesStr
    · exact absurd h (by simp)

/-- Witness for C10 at a concrete response and name. -/
theorem from_string_names_clean_witness :
    "Notch".toList ≠ [] ∧ pyStrip "Notch".toList = "Notch".toList :=
  from_string_names_clean
    "There are 3 of a max 20 players online: Notch".toList
    ⟨3, 20, ["Notch".toList]⟩ (by decide) "Notch".toList (by decide)

theorem splitFirstColon_append (h t : List Char) (hh : ∀ c ∈ h, c ≠ ':') :
    splitFirstColon (h ++ ':' :: t) = some (h, t) := by
  induction h with
  | nil => simp [splitFirstColon]
  | cons c h ih =>
    have hc : c ≠ ':' := hh c (by simp)
    simp [splitFirstColon, hc, ih (fun d hd => hh d (by simp [hd]))]

theorem splitWsAux_token (t : List Char) (ht : ∀ c ∈ t, isPySpace c = false) :
    ∀ s acc, splitWsAux (t ++ s) acc = splitWsAux s (t.reverse ++ acc) := by
  induction t with
  | nil => intro s acc; simp
  | cons c t ih =>
    intro s acc
    have hc : isPySpace c = false := ht c (by simp)
    rw [List.cons_append]
    simp only [splitWsAux, hc, Bool.false_eq_true, if_false]
    rw [ih (fun d hd => ht d (by simp [hd])) s (c :: acc)]
    simp

theorem splitWs_joinSp (ts : List (List Char))
    (h : ∀ t ∈ ts, t ≠ [] ∧ ∀ c ∈ t, isPySpace c = false) :
    splitWs (joinSp ts) = ts := by
  induction ts with
  | nil => rfl
  | cons t1 ts ih =>
    obtain ⟨hne, hsp⟩ := h t1 (by simp)
    cases ts with
    | nil =>
      show splitWsAux (joinSp [t1]) [] = [t1]
      have hj : joinSp [t1] = t1 ++ [] := by simp [joinSp]
      rw [hj, splitWsAux_token t1 hsp]
      simp [splitWsAux, hne]
    | cons t2 ts' =>
      have ih' : splitWsAux (joinSp (t2 :: ts')) [] = t2 :: ts' :=
        ih (fun t htm => h t (by simp [htm]))
      have hj : joinSp (t1 :: t2 :: ts') = t1 ++ ' ' :: joinSp (t2 :: ts') := rfl
      show splitWsAux (joinSp (t1 :: t2 :: ts')) [] = t1 :: t2 :: ts'
      rw [hj, splitWsAux_token t1 hsp]
      simp [splitWsAux, isPySpace, hne, ih']

theorem splitCommaSpace_cons2 (c1 c2 : Char) (rest : List Char) :
    splitCommaSpace (c1 :: c2 :: rest) =
      if c1 = ',' ∧ c2 = ' ' then [] :: splitCommaSpace rest
      else
        match splitCommaSpace (c2 :: rest) with
        | [] => [[c1]]
        | r :: rs => (c1 :: r) :: rs := rfl

theorem hasCS_cons2_false (c d : Char) (n : List Char)
    (h : hasCS (c :: d :: n) = false) :
    ¬(c = ',' ∧ d = ' ') ∧ hasCS (d :: n) = false := by
  rw [show hasCS (c :: d :: n) = ((c = ',' && d = ' ') || hasCS (d :: n)) from rfl]
    at h
  simp only [Bool.or_eq_false_iff, Bool.and_eq_false_iff] at h
  obtain ⟨h1, h2⟩ := h
  refine ⟨?_, h2⟩
  rintro ⟨rfl, rfl⟩
  simp at h1

theorem splitCommaSpace_no_sep (n : List Char) (h : hasCS n = false) :
    splitCommaSpace n = [n] := by
  induction n with
  | nil => rfl
  | cons c n ih =>
    cases n with
    | nil => rfl
    | cons d n' =>
      obtain ⟨h1, h2⟩ := hasCS_cons2_false c d n' h
      rw [splitCommaSpace_cons2, if_neg h1, ih h2]

theorem splitCommaSpace_append_sep (n : List Char) (h : hasCS n = false)
    (r : List Char) :
    splitCommaSpace (n ++ ',' :: ' ' :: r) = n :: splitCommaSpace r := by
  induction n with
  | nil =>
    show splitCommaSpace (',' :: ' ' :: r) = [] :: splitCommaSpace r
    rw [splitCommaSpace_cons2, if_pos ⟨rfl, rfl⟩]
  | cons c n ih =>
    cases n with
    | nil =>
      show splitCommaSpace (c :: ',' :: ' ' :: r) = [c] :: splitCommaSpace r
      have h1 : ¬(c = ',' ∧ ',' = ' ') := by simp
      rw [splitCommaSpace_cons2, if_neg h1, splitCommaSpace_cons2,
        if_pos ⟨rfl, rfl⟩]
    | cons d n' =>
      obtain ⟨h1, h2⟩ := hasCS_cons2_false c d n' h
      have ih' := ih h2
      rw [List.cons_append] at ih'
      show splitCommaSpace (c :: ((d :: n') ++ ',' :: ' ' :: r)) =
        (c :: d :: n') :: splitCommaSpace r
      rw [List.cons_append, splitCommaSpace_cons2, if_neg h1, ih']

theorem splitCS_joinCS (ns : List (List Char))
    (h : ∀ n ∈ ns, hasCS n = false) (hne : ns ≠ []) :
    splitCommaSpace (joinCS ns) = ns := by
  induction ns with
  | nil => exact absurd rfl hne
  | cons n1 ns ih =>
    cases ns with
    | nil => exact splitCommaSpace_no_sep n1 (h n1 (by simp))
    | cons n2 ns' =>
      have hj : joinCS (n1 :: n2 :: ns') = n1 ++ ',' :: ' ' :: joinCS (n2 :: ns') :=
        rfl
      rw [hj, splitCommaSpace_append_sep n1 (h n1 (by simp)),
        ih (fun n hn => h n (by simp [hn])) (by simp)]

theorem map_pyStrip_id (ns : List (List Char)) (h : ∀ n ∈ ns, pyStrip n = n) :
    ns.map pyStrip = ns := by
  induction ns with
  | nil => rfl
  | cons n ns ih =>
    simp only [List.map_cons, h n (by simp),
      ih (fun x hx => h x (by simp [hx]))]

theorem filter_nonempty_id (ns : List (List Char)) (h : ∀ n ∈ ns, n ≠ []) :
    ns.filter (fun n => !n.isEmpty) = ns := by
  induction ns with
  | nil => rfl
  | cons n ns ih =>
    have hn : (!n.isEmpty) = true := by
      simpa using h n (by simp)
    simp only [List.filter_cons, hn, if_true,
      ih (fun x hx => h x (by simp [hx]))]

theorem parseNames_joinCS (ns : List (List Char))
    (h : ∀ n ∈ ns, isCleanName n) :
    parseNames (joinCS ns) = ns := by
  cases ns with
  | nil => rfl
  | cons n1 ns' =>
    unfold parseNames
    rw [splitCS_joinCS _ (fun n hn => (h n hn).2.2) (by simp),
      map_pyStrip_id _ (fun n hn => (h n hn).2.1),
      filter_nonempty_id _ (fun n hn => (h n hn).1)]

theorem mem_joinSp (ts : List (List Char)) (c : Char) (hc : c ∈ joinSp ts) :
    c = ' ' ∨ ∃ t ∈ ts, c ∈ t := by
  induction ts with
  | nil => simp [joinSp] at hc
  | cons t1 ts ih =>
    cases ts with
    | nil => exact Or.inr ⟨t1, by simp, hc⟩
    | cons t2 ts' =>
      rw [show joinSp (t1 :: t2 :: ts') = t1 ++ ' ' :: joinSp (t2 :: ts') from rfl]
        at hc
      rcases List.mem_append.mp hc with hc | hc
      · exact Or.inr ⟨t1, by simp, hc⟩
      · rcases List.mem_cons.mp hc with hc | hc
        · exact Or.inl hc
        · rcases ih hc with hc | ⟨t, htm, hct⟩
          · exact Or.inl hc
          · exact Or.inr ⟨t, by simp [List.mem_cons.mp htm], hct⟩

/-- C1 amended: a response whose header consists of exactly nine
whitespace-separated words, with an integer literal denoting the online
count as the third word and one denoting the max count as the seventh,
and whose suffix after the first colon is a comma-and-space-separated
list of (non-empty, stripped) names, parses to exactly those counts and
names; an empty name list (`ns = []`, bare trailing colon) yields the
empty name sequence. -/
theorem from_string_nine_token_header
    (t0 t1 t2 t3 t4 t5 t6 t7 t8 : List Char) (o m : Int)
    (ns : List (List Char))
    (ht : ∀ t ∈ [t0, t1, t2, t3, t4, t5, t6, t7, t8], isHeaderToken t)
    (ho : pyInt t2 = some o) (hm : pyInt t6 = some m)
    (hns : ∀ n ∈ ns, isCleanName n) :
    from_string
        (joinSp [t0, t1, t2, t3, t4, t5, t6, t7, t8] ++ ':' :: joinCS ns) =
      some ⟨o, m, ns⟩ := by
  have hcolon : ∀ c ∈ joinSp [t0, t1, t2, t3, t4, t5, t6, t7, t8], c ≠ ':' := by
    intro c hc
    rcases mem_joinSp _ c hc with hsp | ⟨t, htm, hct⟩
    · rw [hsp]; decide
    · exact ((ht t htm).2 c hct).2
  have hws : splitWs (joinSp [t0, t1, t2, t3, t4, t5, t6, t7, t8]) =
      [t0, t1, t2, t3, t4, t5, t6, t7, t8] :=
    splitWs_joinSp _ (fun t htm =>
      ⟨(ht t htm).1, fun c hct => ((ht t htm).2 c hct).1⟩)
  have hph : parseHeader (joinSp [t0, t1, t2, t3, t4, t5, t6, t7, t8]) =
      some (o, m) := by
    unfold parseHeader
    rw [hws]
    simp only [ho, hm]
  have hnames : parseNames (joinCS ns) = ns := parseNames_joinCS ns hns
  unfold from_string
  rw [splitFirstColon_append _ _ hcolon]
  simp [hph, hnames]

/-- Witness for C1's amended theorem at the stock server response. -/
theorem from_string_nine_token_header_witness :
    from_string
        (joinSp ["There".toList, "are".toList, "3".toList, "of".toList,
          "a".toList, "max".toList, "20".toList, "players".toList,
          "online".toList] ++
          ':' :: joinCS ["Notch".toList, "Herobrine".toList]) =
      some ⟨3, 20, ["Notch".toList, "Herobrine".toList]⟩ :=
  from_string_nine_token_header "There".toList "are".toList "3".toList
    "of".toList "a".toList "max".toList "20".toList "players".toList
    "online".toList 3 20 ["Notch".toList, "Herobrine".toList]
    (by decide) (by decide) (by decide) (by decide)

end Mcipc
